import Mathlib

/-!
Verification of the raclette parallel test-execution engine.

This file shallowly embeds the core of the repository (`src/execution.rs`,
`src/config.rs`, together with the tree/option types it consumes) in Lean 4
and proves or refutes the frozen claims about it.

Conventions of the embedding:
* Rust machine integers become `Nat`/`Int` with explicit wrap-around
  (`% 2^w`) where the source can overflow or cast.
* Bytes are `Nat`s (values `< 256` where produced by the encoders).
* `std::time::Duration` becomes a `secs`/`nanos` pair of `Nat`s.
* Fallible or panicking code returns an explicit outcome constructor.
* The nondeterministic environment of the supervisor (poll events, bytes
  read from pipes, `waitpid` answers, elapsed clocks, pids returned by
  `fork`, the cpu count) is supplied by an explicit `Oracle`, and the main
  loop is driven by fuel, so that the whole model stays executable.
-/

namespace Raclette

/-- Model of `std::time::Duration`: seconds and nanoseconds.  Rust
guarantees `nanos < 10^9` for every constructed value; the embedding keeps
the fields unconstrained and carries that invariant as a hypothesis where
it matters. -/
structure Duration where
  secs : Nat
  nanos : Nat
deriving DecidableEq, Repr

namespace Duration

/-- `Duration::from_secs`. -/
def from_secs (n : Nat) : Duration := ⟨n, 0⟩

/-- `Duration::default()` is zero. -/
instance : Inhabited Duration := ⟨⟨0, 0⟩⟩

def toNanos (d : Duration) : Nat := d.secs * 1000000000 + d.nanos

/-- The `Ord`er on Rust durations (lexicographic on well-formed values,
equivalently comparison of total nanoseconds). -/
def le (a b : Duration) : Bool := a.toNanos ≤ b.toNanos

end Duration

/-- `DEFAULT_TIMEOUT` from execution.rs line 15. -/
def DEFAULT_TIMEOUT : Duration := Duration.from_secs 10

/-- `Status` from execution.rs lines 20-27.  `Failure` carries an `i32`
exit code, `Signaled` a signal name. -/
inductive Status where
  | Success : Status
  | Failure (code : Int) : Status
  | Signaled (sig : String) : Status
  | Timeout : Status
  | Skipped (reason : String) : Status
deriving DecidableEq, Repr

/-- `Status::is_ok` from execution.rs lines 33-39. -/
def Status.is_ok : Status → Bool
  | .Success => true
  | .Skipped _ => true
  | _ => false

/-- `InputSource` from execution.rs lines 42-47. -/
inductive InputSource where
  | Stdout : InputSource
  | Stderr : InputSource
  | Report : InputSource
deriving DecidableEq, Repr

/-- Modelled from the spec: the `Options` record with its single
recognized field.  The version of lib.rs matching execution.rs (which
uses `crate::Options`) is not under src/ — the lib.rs present there is a
stale variant without it.  Per the spec, "Options — currently a single
recognized field: `skip_reason: optional string`". -/
structure Options where
  skip_reason : Option String
deriving DecidableEq, Repr

instance : Inhabited Options := ⟨⟨none⟩⟩

/-- Modelled from the spec: option inheritance, "a child's option is its
own value if set, else the parent's" (the `inherit` method called by
`make_plan` lives in the missing lib.rs variant). -/
def Options.inherit (child parent : Options) : Options :=
  ⟨child.skip_reason.orElse fun _ => parent.skip_reason⟩

/-- `Task` from execution.rs lines 50-54; `work` is the type-erased
assertion closure, kept as a type parameter `α`. -/
structure Task (α : Type) where
  full_name : List String
  work : α
  options : Options
deriving DecidableEq, Repr

/-- `Task::name` from execution.rs lines 57-59. -/
def Task.name {α : Type} (t : Task α) : String :=
  String.intercalate "::" t.full_name

/-- `When` from config.rs lines 5-12. -/
inductive When where
  | Auto | Always | Never
deriving DecidableEq, Repr

/-- `Format` from config.rs lines 31-38. -/
inductive Format where
  | Auto | LibTest | Tap
deriving DecidableEq, Repr

/-- `Config` from config.rs lines 56-64.  `jobs` is a `usize`. -/
structure Config where
  filter : Option String
  skip_filters : List String
  timeout : Option Duration
  color : When
  jobs : Option Nat
  format : Format
  nocapture : Bool
deriving DecidableEq, Repr

instance : Inhabited Config := ⟨⟨none, [], none, .Auto, none, .Auto, false⟩⟩

/-! ## Token packing (execution.rs lines 368-385)

`Pid` is an `i32`; `Token` wraps a `usize`.  The casts `as usize`
(sign-extending) and `as i32` (truncating) are modelled explicitly. -/

/-- The `as usize` cast of an `i32` value on a 64-bit target
(sign extension, then reinterpretation). -/
def i32AsUsize (i : Int) : Nat := (i % (2 ^ 64 : Int)).toNat

/-- The `as i32` cast of a `usize` value (truncation to 32 bits,
reinterpreted as two's complement). -/
def usizeAsI32 (n : Nat) : Int :=
  if n % 2 ^ 32 < 2 ^ 31 then ((n % 2 ^ 32 : Nat) : Int)
  else ((n % 2 ^ 32 : Nat) : Int) - 2 ^ 32

/-- `make_token` from execution.rs lines 368-374. -/
def make_token (pid : Int) (source : InputSource) : Nat :=
  match source with
  | .Stdout => (i32AsUsize pid <<< 2) % 2 ^ 64
  | .Stderr => ((i32AsUsize pid <<< 2) ||| 1) % 2 ^ 64
  | .Report => ((i32AsUsize pid <<< 2) ||| 2) % 2 ^ 64

/-- `split_token` from execution.rs lines 376-385. -/
def split_token (token : Nat) : Int × InputSource :=
  (usizeAsI32 (token >>> 2),
    if token &&& 2 == 2 then .Report
    else if token &&& 1 == 1 then .Stderr
    else .Stdout)

/-! Helper bit-arithmetic lemmas for the token proofs. -/

theorem lor_four_mul (p k : Nat) (hk : k < 4) : 4 * p ||| k = 4 * p + k := by
  have hk2 : k < 2 ^ 2 := by omega
  have h := Nat.mul_add_lt_is_or hk2 p
  have h4 : (2 : Nat) ^ 2 * p = 4 * p := by norm_num
  rw [h4] at h
  exact h.symm

theorem and_two_eq (n : Nat) : n &&& 2 = 2 * (n / 2 % 2) := by
  have h := Nat.and_two_pow n 1
  rw [Nat.testBit_to_div_mod, pow_one] at h
  rw [h]
  by_cases hc : n / 2 % 2 = 1
  · rw [hc]
    norm_num
  · rw [decide_eq_false hc]
    have h0 : n / 2 % 2 = 0 := by omega
    rw [h0]
    norm_num

/-- Claim C7: for every pid representable as a positive `i32` (the type of
pids in the source) and every input source, splitting the token made from
them recovers the pair: `split_token (make_token pid src) = (pid, src)`. -/
theorem token_roundtrip (pid : Int) (src : InputSource)
    (hpos : 0 < pid) (hlt : pid < 2 ^ 31) :
    split_token (make_token pid src) = (pid, src) := by
  have hp : i32AsUsize pid = pid.toNat := by
    unfold i32AsUsize
    rw [Int.emod_eq_of_lt (by omega) (by omega)]
  have hpn : pid.toNat < 2 ^ 31 := by omega
  have hback : usizeAsI32 pid.toNat = pid := by
    unfold usizeAsI32
    rw [Nat.mod_eq_of_lt (by omega), if_pos (by omega)]
    omega
  have hmul : pid.toNat * 2 ^ 2 = 4 * pid.toNat := by ring
  cases src with
  | Stdout =>
    have hmk : make_token pid .Stdout = 4 * pid.toNat := by
      show (i32AsUsize pid <<< 2) % 2 ^ 64 = 4 * pid.toNat
      rw [hp, Nat.shiftLeft_eq, hmul, Nat.mod_eq_of_lt (by omega)]
    rw [hmk]
    unfold split_token
    have ha2 : 4 * pid.toNat &&& 2 = 0 := by rw [and_two_eq]; omega
    have ha1 : 4 * pid.toNat &&& 1 = 0 := by rw [Nat.and_one_is_mod]; omega
    have hsh : (4 * pid.toNat) >>> 2 = pid.toNat := by
      rw [Nat.shiftRight_eq_div_pow]; omega
    rw [ha2, ha1, hsh, hback]
    simp
  | Stderr =>
    have hmk : make_token pid .Stderr = 4 * pid.toNat + 1 := by
      show ((i32AsUsize pid <<< 2) ||| 1) % 2 ^ 64 = 4 * pid.toNat + 1
      rw [hp, Nat.shiftLeft_eq, hmul, lor_four_mul _ _ (by norm_num),
        Nat.mod_eq_of_lt (by omega)]
    rw [hmk]
    unfold split_token
    have ha2 : (4 * pid.toNat + 1) &&& 2 = 0 := by rw [and_two_eq]; omega
    have ha1 : (4 * pid.toNat + 1) &&& 1 = 1 := by rw [Nat.and_one_is_mod]; omega
    have hsh : (4 * pid.toNat + 1) >>> 2 = pid.toNat := by
      rw [Nat.shiftRight_eq_div_pow]; omega
    rw [ha2, ha1, hsh, hback]
    simp
  | Report =>
    have hmk : make_token pid .Report = 4 * pid.toNat + 2 := by
      show ((i32AsUsize pid <<< 2) ||| 2) % 2 ^ 64 = 4 * pid.toNat + 2
      rw [hp, Nat.shiftLeft_eq, hmul, lor_four_mul _ _ (by norm_num),
        Nat.mod_eq_of_lt (by omega)]
    rw [hmk]
    unfold split_token
    have ha2 : (4 * pid.toNat + 2) &&& 2 = 2 := by rw [and_two_eq]; omega
    have hsh : (4 * pid.toNat + 2) >>> 2 = pid.toNat := by
      rw [Nat.shiftRight_eq_div_pow]; omega
    rw [ha2, hsh, hback]
    simp

/-- Witness for C7 at pid 1234 and the stage-report source. -/
theorem token_roundtrip_witness :
    (0 : Int) < 1234 ∧ (1234 : Int) < 2 ^ 31 ∧
      split_token (make_token 1234 .Report) = (1234, .Report) :=
  ⟨by norm_num, by norm_num, token_roundtrip 1234 .Report (by norm_num) (by norm_num)⟩

/-! ## Test tree and plan builder (execution.rs lines 236-298)

The `TestTree`/`TreeNode` pair of the lib.rs variant matching execution.rs
(`Leaf` and `Fork` both carrying `options`) is flattened into one
inductive; the stale lib.rs under src/ lacks the options fields that
`make_plan` pattern-matches on. -/

inductive TestTree (α : Type) where
  | Leaf (name : String) (assertion : α) (options : Options) : TestTree α
  | Fork (name : String) (tests : List (TestTree α)) (options : Options) : TestTree α

/-- Modelled from the spec: `TestTree::name` (used by `make_plan` as
`t.name()` for the skip-filter check; its declaration lives in the missing
lib.rs variant).  It returns the root node's name. -/
def TestTree.nodeName {α : Type} : TestTree α → String
  | .Leaf n _ _ => n
  | .Fork n _ _ => n

/-- Substring containment on strings, modelling Rust's `str::contains`
with a string pattern.  Byte-level containment of valid UTF-8 coincides
with `Char`-level containment, which is used here. -/
def strContains (s pat : String) : Bool :=
  (List.range (s.data.length + 1)).any
    fun i => (s.data.drop i).take pat.data.length == pat.data

/-- The local `matches` helper of `make_plan` (execution.rs lines
237-239). -/
def matchesFilter (name : String) (filter : Option String) : Bool :=
  (filter.map fun f => strContains name f).getD true

mutual

/-- The local `go` of `make_plan` (execution.rs lines 241-286). -/
def makePlanGo {α : Type} (skips : List String) (filter : Option String)
    (t : TestTree α) (path : List String) (parent_opts : Options) :
    List (Task α) :=
  match t with
  | .Leaf name assertion options =>
    if !matchesFilter name filter || skips.any (fun f => strContains name f)
    then []
    else [⟨path ++ [name], assertion, options.inherit parent_opts⟩]
  | .Fork name tests options =>
    if matchesFilter name filter && !(skips.any fun f => strContains name f)
    then makePlanGoList skips none tests (path ++ [name])
      (options.inherit parent_opts)
    else if !(skips.any fun f => strContains name f)
    then makePlanGoList skips filter tests (path ++ [name])
      (options.inherit parent_opts)
    else []

/-- The `for t in tests { go(...) }` loop of `make_plan`, with the
results accumulated in order. -/
def makePlanGoList {α : Type} (skips : List String) (filter : Option String)
    (ts : List (TestTree α)) (path : List String) (parent_opts : Options) :
    List (Task α) :=
  match ts with
  | [] => []
  | t :: rest =>
    makePlanGo skips filter t path parent_opts ++
      makePlanGoList skips filter rest path parent_opts

end

/-- `make_plan` from execution.rs lines 236-298. -/
def make_plan {α : Type} (config : Config) (t : TestTree α) : List (Task α) :=
  makePlanGo config.skip_filters config.filter t [] default

/-! Spec-side characterization of the plan builder, written from the
words of claim C1: enumerate the leaves depth-first left-to-right with
their root-to-leaf paths and inherited options, and keep exactly the
leaves admitted by the filter/skip rules. -/

/-- One leaf of the tree: the names of the `Fork`s on the path from the
root (in order), the leaf's own name, its assertion and its fully
inherited options. -/
structure LeafEntry (α : Type) where
  forks : List String
  leaf : String
  work : α
  opts : Options

mutual

/-- All leaves of a tree in depth-first, left-to-right order. -/
def dfsLeaves {α : Type} (t : TestTree α) (opts : Options) :
    List (LeafEntry α) :=
  match t with
  | .Leaf n a o => [⟨[], n, a, o.inherit opts⟩]
  | .Fork n ts o =>
    (dfsLeavesList ts (o.inherit opts)).map
      fun e => ⟨n :: e.forks, e.leaf, e.work, e.opts⟩

def dfsLeavesList {α : Type} (ts : List (TestTree α)) (opts : Options) :
    List (LeafEntry α) :=
  match ts with
  | [] => []
  | t :: rest => dfsLeaves t opts ++ dfsLeavesList rest opts

end

/-- Whether any skip filter is a substring of `name` ("`skip_applies`"). -/
def skipApplies (skips : List String) (name : String) : Bool :=
  skips.any fun f => strContains name f

/-- The filter in force at the leaf: each `Fork` on the path whose name
matches the current filter clears it for its subtree, otherwise the
filter is carried down unchanged. -/
def filterAfter (filter : Option String) (forks : List String) :
    Option String :=
  forks.foldl (fun f n => if matchesFilter n f then none else f) filter

/-- A leaf is admitted iff no node on its root-to-leaf path has a name
containing a skip filter, and the leaf's name matches the (possibly
cleared) filter. -/
def admitsLeaf (skips : List String) (filter : Option String)
    {α : Type} (e : LeafEntry α) : Bool :=
  (e.forks.all fun n => !skipApplies skips n) && !skipApplies skips e.leaf
    && matchesFilter e.leaf (filterAfter filter e.forks)

/-- The plan as described by the spec: the depth-first leaf sequence,
filtered to the admitted leaves, each yielding a `Task` whose `full_name`
is the root-to-leaf path of names. -/
def planSpec {α : Type} (config : Config) (t : TestTree α) : List (Task α) :=
  (dfsLeaves t default).filterMap fun e =>
    if admitsLeaf config.skip_filters config.filter e
    then some ⟨e.forks ++ [e.leaf], e.work, e.opts⟩
    else none

theorem filterMap_congr_fun {α β : Type} (l : List α) (f g : α → Option β)
    (h : ∀ a ∈ l, f a = g a) : l.filterMap f = l.filterMap g := by
  induction l with
  | nil => rfl
  | cons x xs ih =>
    simp only [List.filterMap_cons]
    rw [h x (by simp)]
    rw [ih fun a ha => h a (by simp [ha])]

mutual

theorem go_eq_spec {α : Type} (skips : List String) (filter : Option String)
    (t : TestTree α) (path : List String) (opts : Options) :
    makePlanGo skips filter t path opts =
      (dfsLeaves t opts).filterMap fun e =>
        if admitsLeaf skips filter e
        then some ⟨path ++ e.forks ++ [e.leaf], e.work, e.opts⟩
        else none := by
  match t with
  | .Leaf n a o =>
    simp only [makePlanGo, dfsLeaves, List.filterMap_cons, List.filterMap_nil,
      admitsLeaf, skipApplies, filterAfter, List.all_nil, List.foldl_nil,
      Bool.true_and, List.nil_append]
    by_cases h1 : matchesFilter n filter
    · by_cases h2 : (skips.any fun f => strContains n f)
      · simp [h1, h2]
      · simp [h1, h2]
    · simp [h1]
  | .Fork n ts o =>
    rw [makePlanGo, dfsLeaves, List.filterMap_map]
    by_cases hskip : (skips.any fun f => strContains n f)
    · rw [if_neg (by simp [hskip]), if_neg (by simp [hskip])]
      apply Eq.symm
      rw [List.filterMap_eq_nil_iff]
      intro e _
      simp only [Function.comp_apply, admitsLeaf, skipApplies]
      simp [hskip]
    · by_cases hm : matchesFilter n filter
      · rw [if_pos (by simp [hskip, hm]),
          goList_eq_spec skips none ts (path ++ [n]) (o.inherit opts)]
        apply filterMap_congr_fun
        intro e _
        simp only [Function.comp_apply, admitsLeaf, skipApplies,
          filterAfter, List.all_cons, List.foldl_cons, Bool.not_eq_true]
        rw [if_pos hm]
        simp [hskip, skipApplies, filterAfter, List.append_assoc]
      · rw [if_neg (by simp [hm]), if_pos (by simp [hskip]),
          goList_eq_spec skips filter ts (path ++ [n]) (o.inherit opts)]
        apply filterMap_congr_fun
        intro e _
        simp only [Function.comp_apply, admitsLeaf, skipApplies,
          filterAfter, List.all_cons, List.foldl_cons, Bool.not_eq_true]
        rw [if_neg hm]
        simp [hskip, skipApplies, filterAfter, List.append_assoc]

theorem goList_eq_spec {α : Type} (skips : List String)
    (filter : Option String) (ts : List (TestTree α)) (path : List String)
    (opts : Options) :
    makePlanGoList skips filter ts path opts =
      (dfsLeavesList ts opts).filterMap fun e =>
        if admitsLeaf skips filter e
        then some ⟨path ++ e.forks ++ [e.leaf], e.work, e.opts⟩
        else none := by
  match ts with
  | [] => rfl
  | t :: rest =>
    rw [makePlanGoList, dfsLeavesList, List.filterMap_append,
      go_eq_spec skips filter t path opts,
      goList_eq_spec skips filter rest path opts]

end

/-- Claim C1: `make_plan` emits exactly the depth-first, left-to-right
sequence of admitted leaves: a leaf contributes a `Task` iff its name
matches the (possibly cleared) filter and no node on its root-to-leaf
path has a name containing a skip filter; a matching `Fork` clears the
filter for its subtree, a non-matching one carries it down; the emitted
`Task`'s `full_name` is the root-to-leaf path of names. -/
theorem make_plan_eq_planSpec {α : Type} (config : Config)
    (t : TestTree α) : make_plan config t = planSpec config t := by
  rw [make_plan, planSpec, go_eq_spec]
  apply filterMap_congr_fun
  intro e _
  simp

/-! ## Byte-level integer encodings

Models of `usize::to_be_bytes`, `u64`/`u32`/`i32` little-endian encoding
(bincode 1.x with its default configuration: little-endian, fixed-width
integers, `u32` enum tags). -/

/-- `k`-byte little-endian encoding of `n` (truncating at `2^(8k)`,
as the Rust casts do). -/
def toLEBytes : Nat → Nat → List Nat
  | 0, _ => []
  | k + 1, n => n % 256 :: toLEBytes k (n / 256)

/-- Little-endian read-back of a byte list. -/
def fromLEBytes (bs : List Nat) : Nat :=
  bs.foldr (fun b acc => b + 256 * acc) 0

/-- `k`-byte big-endian encoding (`usize::to_be_bytes`). -/
def toBEBytes (k n : Nat) : List Nat := (toLEBytes k n).reverse

/-- Big-endian read-back (`usize::from_be_bytes`). -/
def fromBEBytes (bs : List Nat) : Nat := fromLEBytes bs.reverse

theorem toLEBytes_length (k n : Nat) : (toLEBytes k n).length = k := by
  induction k generalizing n with
  | zero => rfl
  | succ k ih => simp [toLEBytes, ih]

theorem fromLE_toLE (k n : Nat) (h : n < 256 ^ k) :
    fromLEBytes (toLEBytes k n) = n := by
  induction k generalizing n with
  | zero =>
    simp only [pow_zero, Nat.lt_one_iff] at h
    simp [toLEBytes, fromLEBytes, h]
  | succ k ih =>
    have hd : n / 256 < 256 ^ k := by
      rw [Nat.div_lt_iff_lt_mul (by norm_num)]
      calc n < 256 ^ (k + 1) := h
        _ = 256 ^ k * 256 := by ring
    simp only [toLEBytes, fromLEBytes, List.foldr_cons]
    have := ih (n / 256) hd
    simp only [fromLEBytes] at this
    rw [this]
    omega

theorem toBEBytes_length (k n : Nat) : (toBEBytes k n).length = k := by
  simp [toBEBytes, toLEBytes_length]

theorem fromBE_toBE (k n : Nat) (h : n < 256 ^ k) :
    fromBEBytes (toBEBytes k n) = n := by
  simp [toBEBytes, fromBEBytes, List.reverse_reverse, fromLE_toLE k n h]

/-! ## UTF-8 (the `String` codec used by bincode via Rust `String`s)

`bincode` writes a Rust `String` as a `u64` byte length followed by its
UTF-8 bytes, and validates UTF-8 on the way back in. -/

/-- UTF-8 encoding of a unicode scalar value. -/
def utf8EncodeCharNat (c : Nat) : List Nat :=
  if c < 0x80 then [c]
  else if c < 0x800 then [0xC0 + c / 64, 0x80 + c % 64]
  else if c < 0x10000 then
    [0xE0 + c / 4096, 0x80 + c / 64 % 64, 0x80 + c % 64]
  else
    [0xF0 + c / 262144, 0x80 + c / 4096 % 64, 0x80 + c / 64 % 64,
      0x80 + c % 64]

/-- UTF-8 bytes of a string. -/
def utf8Encode (s : String) : List Nat :=
  (s.data.map fun c => utf8EncodeCharNat c.toNat).flatten

/-- A UTF-8 continuation byte. -/
def isCont (b : Nat) : Bool := 0x80 ≤ b && b < 0xC0

/-- Decode the first scalar value from a byte list, validating ranges,
continuation bytes, overlong encodings and surrogates as Rust's
`str::from_utf8` does. -/
def utf8DecodeChar : List Nat → Option (Nat × List Nat)
  | [] => none
  | b0 :: t =>
    if b0 < 0x80 then some (b0, t)
    else if b0 < 0xC0 then none
    else if b0 < 0xE0 then
      match t with
      | b1 :: t1 =>
        if isCont b1 then
          if 0x80 ≤ (b0 - 0xC0) * 64 + (b1 - 0x80) then
            some ((b0 - 0xC0) * 64 + (b1 - 0x80), t1)
          else none
        else none
      | [] => none
    else if b0 < 0xF0 then
      match t with
      | b1 :: b2 :: t2 =>
        if isCont b1 && isCont b2 then
          if 0x800 ≤ (b0 - 0xE0) * 4096 + (b1 - 0x80) * 64 + (b2 - 0x80) ∧
              ¬(0xD800 ≤ (b0 - 0xE0) * 4096 + (b1 - 0x80) * 64 + (b2 - 0x80) ∧
                (b0 - 0xE0) * 4096 + (b1 - 0x80) * 64 + (b2 - 0x80) < 0xE000)
          then some ((b0 - 0xE0) * 4096 + (b1 - 0x80) * 64 + (b2 - 0x80), t2)
          else none
        else none
      | _ => none
    else if b0 < 0xF8 then
      match t with
      | b1 :: b2 :: b3 :: t3 =>
        if isCont b1 && isCont b2 && isCont b3 then
          if 0x10000 ≤ (b0 - 0xF0) * 262144 + (b1 - 0x80) * 4096 +
                (b2 - 0x80) * 64 + (b3 - 0x80) ∧
              (b0 - 0xF0) * 262144 + (b1 - 0x80) * 4096 + (b2 - 0x80) * 64 +
                (b3 - 0x80) < 0x110000
          then some ((b0 - 0xF0) * 262144 + (b1 - 0x80) * 4096 +
            (b2 - 0x80) * 64 + (b3 - 0x80), t3)
          else none
        else none
      | _ => none
    else none

/-- Decode a whole byte list into scalar values (fuel-driven; one unit of
fuel per decoded character suffices since every character consumes at
least one byte). -/
def utf8DecodeAux : Nat → List Nat → Option (List Nat)
  | _, [] => some []
  | 0, _ :: _ => none
  | fuel + 1, b :: t =>
    match utf8DecodeChar (b :: t) with
    | some (c, rest) => (utf8DecodeAux fuel rest).map fun cs => c :: cs
    | none => none

def utf8Decode (bs : List Nat) : Option (List Nat) :=
  utf8DecodeAux bs.length bs

/-- `String::from_utf8` on a byte list. -/
def decodeUtf8String (bs : List Nat) : Option String :=
  (utf8Decode bs).map fun cps => ⟨cps.map Char.ofNat⟩

theorem utf8EncodeCharNat_length_pos (c : Nat) :
    0 < (utf8EncodeCharNat c).length := by
  unfold utf8EncodeCharNat
  split_ifs <;> simp

theorem utf8DecodeChar_encode (c : Nat) (h : c.isValidChar)
    (rest : List Nat) :
    utf8DecodeChar (utf8EncodeCharNat c ++ rest) = some (c, rest) := by
  have hlt : c < 0x110000 := by
    rcases h with h | ⟨h1, h2⟩ <;> omega
  unfold utf8EncodeCharNat
  by_cases h1 : c < 0x80
  · rw [if_pos h1]
    simp [utf8DecodeChar, h1]
  · rw [if_neg h1]
    by_cases h2 : c < 0x800
    · rw [if_pos h2]
      have e1 : ¬(0xC0 + c / 64 < 0x80) := by omega
      have e2 : ¬(0xC0 + c / 64 < 0xC0) := by omega
      have e3 : 0xC0 + c / 64 < 0xE0 := by omega
      have e4 : isCont (0x80 + c % 64) = true := by
        simp only [isCont, Bool.and_eq_true, decide_eq_true_eq]
        omega
      have e5 : (0xC0 + c / 64 - 0xC0) * 64 + (0x80 + c % 64 - 0x80) = c := by
        omega
      have e6 : 0x80 ≤ c := by omega
      simp [utf8DecodeChar, e1, e2, e3, e4, e5, e6]
      omega
    · rw [if_neg h2]
      by_cases h3 : c < 0x10000
      · rw [if_pos h3]
        have e1 : ¬(0xE0 + c / 4096 < 0x80) := by omega
        have e2 : ¬(0xE0 + c / 4096 < 0xC0) := by omega
        have e3 : ¬(0xE0 + c / 4096 < 0xE0) := by omega
        have e4 : 0xE0 + c / 4096 < 0xF0 := by omega
        have e5 : isCont (0x80 + c / 64 % 64) = true := by
          simp only [isCont, Bool.and_eq_true, decide_eq_true_eq]
          omega
        have e6 : isCont (0x80 + c % 64) = true := by
          simp only [isCont, Bool.and_eq_true, decide_eq_true_eq]
          omega
        have e7 : (0xE0 + c / 4096 - 0xE0) * 4096 +
            (0x80 + c / 64 % 64 - 0x80) * 64 + (0x80 + c % 64 - 0x80) = c := by
          omega
        have e8 : 0x800 ≤ c ∧ ¬(0xD800 ≤ c ∧ c < 0xE000) := by
          rcases h with h | ⟨ha, hb⟩ <;> omega
        simp [utf8DecodeChar, e1, e2, e3, e4, e5, e6, e7, e8]
        omega
      · rw [if_neg h3]
        have e1 : ¬(0xF0 + c / 262144 < 0x80) := by omega
        have e2 : ¬(0xF0 + c / 262144 < 0xC0) := by omega
        have e3 : ¬(0xF0 + c / 262144 < 0xE0) := by omega
        have e4 : ¬(0xF0 + c / 262144 < 0xF0) := by omega
        have e5 : 0xF0 + c / 262144 < 0xF8 := by omega
        have e6 : isCont (0x80 + c / 4096 % 64) = true := by
          simp only [isCont, Bool.and_eq_true, decide_eq_true_eq]
          omega
        have e7 : isCont (0x80 + c / 64 % 64) = true := by
          simp only [isCont, Bool.and_eq_true, decide_eq_true_eq]
          omega
        have e8 : isCont (0x80 + c % 64) = true := by
          simp only [isCont, Bool.and_eq_true, decide_eq_true_eq]
          omega
        have e9 : (0xF0 + c / 262144 - 0xF0) * 262144 +
            (0x80 + c / 4096 % 64 - 0x80) * 4096 +
            (0x80 + c / 64 % 64 - 0x80) * 64 + (0x80 + c % 64 - 0x80) = c := by
          omega
        have e10 : 0x10000 ≤ c ∧ c < 0x110000 := by omega
        simp [utf8DecodeChar, e1, e2, e3, e4, e5, e6, e7, e8, e9, e10]
        omega

theorem utf8DecodeAux_encode (cs : List Char) (fuel : Nat)
    (hf : cs.length ≤ fuel) :
    utf8DecodeAux fuel ((cs.map fun c => utf8EncodeCharNat c.toNat).flatten)
      = some (cs.map Char.toNat) := by
  induction cs generalizing fuel with
  | nil => simp [utf8DecodeAux]
  | cons c cs ih =>
    match fuel with
    | 0 => simp at hf
    | fuel + 1 =>
      have hv : c.toNat.isValidChar := c.valid
      have hdec := utf8DecodeChar_encode c.toNat hv
        ((cs.map fun c => utf8EncodeCharNat c.toNat).flatten)
      simp only [List.map_cons, List.flatten_cons]
      cases hE : utf8EncodeCharNat c.toNat with
      | nil =>
        exfalso
        have := utf8EncodeCharNat_length_pos c.toNat
        rw [hE] at this
        simp at this
      | cons b bt =>
        rw [hE] at hdec
        simp only [List.cons_append]
        rw [utf8DecodeAux]
        rw [show b :: (bt ++ (cs.map fun c => utf8EncodeCharNat c.toNat).flatten)
            = (b :: bt) ++ (cs.map fun c => utf8EncodeCharNat c.toNat).flatten
          from rfl, hdec]
        simp [ih fuel (by simp at hf; omega)]

theorem utf8EncodeList_length_ge (cs : List Char) :
    cs.length ≤ ((cs.map fun c => utf8EncodeCharNat c.toNat).flatten).length := by
  induction cs with
  | nil => simp
  | cons c cs ih =>
    simp only [List.map_cons, List.flatten_cons, List.length_append,
      List.length_cons]
    have := utf8EncodeCharNat_length_pos c.toNat
    omega

theorem utf8Decode_encode (s : String) :
    utf8Decode (utf8Encode s) = some (s.data.map Char.toNat) :=
  utf8DecodeAux_encode s.data _ (utf8EncodeList_length_ge s.data)

theorem list_map_ofNat_toNat (l : List Char) :
    (l.map Char.toNat).map Char.ofNat = l := by
  induction l with
  | nil => rfl
  | cons a t ih => simp [Char.ofNat_toNat, ih]

theorem decodeUtf8String_encode (s : String) :
    decodeUtf8String (utf8Encode s) = some s := by
  rw [decodeUtf8String, utf8Decode_encode]
  show some (⟨(s.data.map Char.toNat).map Char.ofNat⟩ : String) = some s
  rw [list_map_ofNat_toNat]

/-! ## Stage reports and their bincode payload (execution.rs lines 147-193)

`bincode::serialize` with bincode 1.x's default configuration writes
little-endian fixed-width integers, `u64` lengths for strings and `u32`
tags for enum variants; `std::time::Duration` serializes as
`(secs : u64, nanos : u32)` and is rebuilt with `Duration::new` on the way
in. -/

/-- `StageStatus` from execution.rs lines 148-152. -/
inductive StageStatus where
  | Success : StageStatus
  | Failure (code : Int) : StageStatus
  | Skipped (reason : String) : StageStatus
deriving DecidableEq, Repr

/-- `From<StageStatus> for Status` from execution.rs lines 154-162. -/
def StageStatus.toStatus : StageStatus → Status
  | .Success => .Success
  | .Failure code => .Failure code
  | .Skipped reason => .Skipped reason

/-- `StageReport` from execution.rs lines 164-169. -/
structure StageReport where
  stage_name : String
  status : StageStatus
  duration : Duration
deriving DecidableEq, Repr

/-- The bit pattern of an `i32` (two's complement, as a `Nat`). -/
def i32Bits (c : Int) : Nat := (c % (2 ^ 32 : Int)).toNat

/-- bincode encoding of a Rust `String`. -/
def encodeString (s : String) : List Nat :=
  toLEBytes 8 (utf8Encode s).length ++ utf8Encode s

/-- bincode encoding of `StageStatus` (u32 tag, then the payload). -/
def encodeStageStatus : StageStatus → List Nat
  | .Success => toLEBytes 4 0
  | .Failure code => toLEBytes 4 1 ++ toLEBytes 4 (i32Bits code)
  | .Skipped reason => toLEBytes 4 2 ++ encodeString reason

/-- bincode (serde) encoding of `Duration`. -/
def encodeDuration (d : Duration) : List Nat :=
  toLEBytes 8 d.secs ++ toLEBytes 4 d.nanos

/-- `bincode::serialize` of a `StageReport` (fields in order). -/
def encodeStageReport (r : StageReport) : List Nat :=
  encodeString r.stage_name ++ encodeStageStatus r.status ++
    encodeDuration r.duration

/-! Parsers (`bincode::deserialize`): each consumes a prefix and returns
the rest; `none` is a deserialization error.  bincode 1.x does not demand
that all input bytes are consumed. -/

/-- Read exactly `n` bytes. -/
def pTake (n : Nat) (bs : List Nat) : Option (List Nat × List Nat) :=
  if n ≤ bs.length then some (bs.take n, bs.drop n) else none

def pU64 (bs : List Nat) : Option (Nat × List Nat) :=
  (pTake 8 bs).map fun x => (fromLEBytes x.1, x.2)

def pU32 (bs : List Nat) : Option (Nat × List Nat) :=
  (pTake 4 bs).map fun x => (fromLEBytes x.1, x.2)

/-- Reinterpret 32 bits as an `i32`. -/
def bitsAsI32 (n : Nat) : Int :=
  if n < 2 ^ 31 then (n : Int) else (n : Int) - 2 ^ 32

def pI32 (bs : List Nat) : Option (Int × List Nat) :=
  (pU32 bs).map fun x => (bitsAsI32 x.1, x.2)

def pString (bs : List Nat) : Option (String × List Nat) := do
  let (len, bs1) ← pU64 bs
  let (raw, bs2) ← pTake len bs1
  let s ← decodeUtf8String raw
  some (s, bs2)

def pStageStatus (bs : List Nat) : Option (StageStatus × List Nat) := do
  let (tag, bs1) ← pU32 bs
  match tag with
  | 0 => some (.Success, bs1)
  | 1 => do
    let (code, bs2) ← pI32 bs1
    some (.Failure code, bs2)
  | 2 => do
    let (reason, bs2) ← pString bs1
    some (.Skipped reason, bs2)
  | _ => none

/-- serde deserialization of `Duration`: reads `secs`/`nanos` and rebuilds
with `Duration::new`, which carries surplus nanoseconds into seconds and
panics if the seconds overflow `u64`. -/
def pDuration (bs : List Nat) : Option (Duration × List Nat) := do
  let (secs, bs1) ← pU64 bs
  let (nanos, bs2) ← pU32 bs1
  if secs + nanos / 1000000000 < 2 ^ 64
  then some (⟨secs + nanos / 1000000000, nanos % 1000000000⟩, bs2)
  else none

/-- `bincode::deserialize::<StageReport>` on a payload. -/
def decodeStageReport (bs : List Nat) : Option StageReport := do
  let (name, bs1) ← pString bs
  let (status, bs2) ← pStageStatus bs1
  let (duration, _) ← pDuration bs2
  some ⟨name, status, duration⟩

/-! Well-formedness: the domain restrictions guaranteed by the Rust types
(`usize` string lengths, `i32` failure codes, `u64`/`< 10^9` durations). -/

def StageStatus.wfb : StageStatus → Bool
  | .Success => true
  | .Failure code => decide (-(2 ^ 31) ≤ code) && decide (code < 2 ^ 31)
  | .Skipped reason => decide ((utf8Encode reason).length < 2 ^ 64)

def StageReport.wfb (r : StageReport) : Bool :=
  decide ((utf8Encode r.stage_name).length < 2 ^ 64) && r.status.wfb &&
    decide (r.duration.secs < 2 ^ 64) &&
    decide (r.duration.nanos < 1000000000) &&
    decide ((encodeStageReport r).length < 2 ^ 64)

theorem pTake_append (xs rest : List Nat) :
    pTake xs.length (xs ++ rest) = some (xs, rest) := by
  rw [pTake, if_pos (by simp)]
  rw [List.take_left, List.drop_left]

theorem pTake_len (k : Nat) (xs rest : List Nat) (h : xs.length = k) :
    pTake k (xs ++ rest) = some (xs, rest) := by
  subst h
  exact pTake_append xs rest

theorem pU64_encode (n : Nat) (h : n < 2 ^ 64) (rest : List Nat) :
    pU64 (toLEBytes 8 n ++ rest) = some (n, rest) := by
  rw [pU64, pTake_len 8 _ rest (toLEBytes_length 8 n), Option.map_some']
  rw [fromLE_toLE 8 n (by norm_num at h ⊢; omega)]

theorem pU32_encode (n : Nat) (h : n < 2 ^ 32) (rest : List Nat) :
    pU32 (toLEBytes 4 n ++ rest) = some (n, rest) := by
  rw [pU32, pTake_len 4 _ rest (toLEBytes_length 4 n), Option.map_some']
  rw [fromLE_toLE 4 n (by norm_num at h ⊢; omega)]

theorem pI32_encode (c : Int) (h1 : -(2 ^ 31) ≤ c) (h2 : c < 2 ^ 31)
    (rest : List Nat) :
    pI32 (toLEBytes 4 (i32Bits c) ++ rest) = some (c, rest) := by
  have hb : i32Bits c < 2 ^ 32 := by
    rw [i32Bits]
    have h0 : (0 : Int) < 2 ^ 32 := by norm_num
    have := Int.emod_lt_of_pos c h0
    have := Int.emod_nonneg c (by norm_num : (2 ^ 32 : Int) ≠ 0)
    omega
  rw [pI32, pU32_encode _ hb rest, Option.map_some']
  have hc : bitsAsI32 (i32Bits c) = c := by
    rw [bitsAsI32, i32Bits]
    have := Int.emod_nonneg c (by norm_num : (2 ^ 32 : Int) ≠ 0)
    by_cases hpos : 0 ≤ c
    · have : c % (2 ^ 32 : Int) = c := Int.emod_eq_of_lt hpos (by omega)
      rw [this, if_pos (by omega)]
      omega
    · have : c % (2 ^ 32 : Int) = c + 2 ^ 32 := by omega
      rw [this, if_neg (by omega)]
      omega
  rw [hc]

theorem pString_encode (s : String) (h : (utf8Encode s).length < 2 ^ 64)
    (rest : List Nat) :
    pString (encodeString s ++ rest) = some (s, rest) := by
  rw [encodeString, pString, List.append_assoc, pU64_encode _ h]
  simp only [Option.bind_eq_bind, Option.some_bind]
  rw [pTake_append (utf8Encode s) rest]
  simp only [Option.some_bind]
  rw [decodeUtf8String_encode]
  simp

theorem pStageStatus_encode (st : StageStatus) (h : st.wfb = true)
    (rest : List Nat) :
    pStageStatus (encodeStageStatus st ++ rest) = some (st, rest) := by
  cases st with
  | Success =>
    rw [encodeStageStatus, pStageStatus, pU32_encode 0 (by norm_num) rest]
    simp
  | Failure code =>
    rw [StageStatus.wfb, Bool.and_eq_true, decide_eq_true_eq,
      decide_eq_true_eq] at h
    rw [encodeStageStatus, pStageStatus, List.append_assoc,
      pU32_encode 1 (by norm_num)]
    simp only [Option.bind_eq_bind, Option.some_bind]
    rw [pI32_encode code h.1 h.2 rest]
    simp
  | Skipped reason =>
    rw [StageStatus.wfb, decide_eq_true_eq] at h
    rw [encodeStageStatus, pStageStatus, List.append_assoc,
      pU32_encode 2 (by norm_num)]
    simp only [Option.bind_eq_bind, Option.some_bind]
    rw [pString_encode reason h rest]
    simp

theorem pDuration_encode (d : Duration) (h1 : d.secs < 2 ^ 64)
    (h2 : d.nanos < 1000000000) (rest : List Nat) :
    pDuration (encodeDuration d ++ rest) = some (d, rest) := by
  rw [encodeDuration, pDuration, List.append_assoc, pU64_encode _ h1]
  simp only [Option.bind_eq_bind, Option.some_bind]
  rw [pU32_encode d.nanos (by omega) rest]
  simp only [Option.some_bind]
  rw [if_pos (by omega)]
  have hd : d.nanos / 1000000000 = 0 := by omega
  have hm : d.nanos % 1000000000 = d.nanos := by omega
  simp [hd, hm]

theorem decodeStageReport_encode (r : StageReport) (h : r.wfb = true) :
    decodeStageReport (encodeStageReport r) = some r := by
  rw [StageReport.wfb, Bool.and_eq_true, Bool.and_eq_true, Bool.and_eq_true,
    Bool.and_eq_true, decide_eq_true_eq, decide_eq_true_eq,
    decide_eq_true_eq, decide_eq_true_eq] at h
  obtain ⟨⟨⟨⟨hname, hstatus⟩, hsecs⟩, hnanos⟩, htotal⟩ := h
  rw [encodeStageReport, decodeStageReport, List.append_assoc,
    pString_encode _ hname]
  simp only [Option.bind_eq_bind, Option.some_bind]
  rw [pStageStatus_encode _ hstatus]
  simp only [Option.some_bind]
  have hdur := pDuration_encode r.duration hsecs hnanos []
  rw [List.append_nil] at hdur
  rw [hdur]
  simp

/-! ## Stage-report framing (execution.rs lines 188-234)

`serialize_and_write` emits the payload length as an 8-byte big-endian
`usize`, then the payload; `StreamDecoder::try_decode` reads frames back
out of an append-only buffer.  `usize` arithmetic on the tiny frame sizes
involved is treated as unbounded. -/

/-- The bytes `serialize_and_write` puts on the pipe for one report. -/
def frameBytes (r : StageReport) : List Nat :=
  toBEBytes 8 (encodeStageReport r).length ++ encodeStageReport r

/-- The bytes of a whole sequence of reports, in order. -/
def encodeFrames (rs : List StageReport) : List Nat :=
  (rs.map frameBytes).flatten

/-- `StreamDecoder` from execution.rs lines 195-198. -/
structure StreamDecoder where
  buf : List Nat
  offset : Nat
deriving DecidableEq, Repr

/-- `StreamDecoder::new`. -/
def StreamDecoder.new : StreamDecoder := ⟨[], 0⟩

/-- `StreamDecoder::append` (lines 208-210). -/
def StreamDecoder.append (d : StreamDecoder) (data : List Nat) :
    StreamDecoder :=
  ⟨d.buf ++ data, d.offset⟩

/-- Outcome of one `try_decode` call: no complete frame yet, one decoded
frame, or the `panic!` raised when `bincode::deserialize` fails. -/
inductive DecodeStep where
  | noFrame : DecodeStep
  | frame (r : StageReport) : DecodeStep
  | panicked : DecodeStep
deriving DecidableEq, Repr

/-- `StreamDecoder::try_decode` from execution.rs lines 212-233.  Note the
strict `avail > size_of::<usize>()` guard, the early `None` when the
payload has not fully arrived, and the `panic!` (modelled as
`DecodeStep.panicked`) on a payload that fails to deserialize. -/
def StreamDecoder.try_decode (d : StreamDecoder) :
    StreamDecoder × DecodeStep :=
  if d.buf.length - d.offset > 8 then
    if d.buf.length - d.offset <
        8 + fromBEBytes ((d.buf.drop d.offset).take 8)
    then (d, .noFrame)
    else
      match decodeStageReport ((d.buf.drop (d.offset + 8)).take
          (fromBEBytes ((d.buf.drop d.offset).take 8))) with
      | some r =>
        (⟨d.buf, d.offset + 8 + fromBEBytes ((d.buf.drop d.offset).take 8)⟩,
          .frame r)
      | none => (d, .panicked)
  else (d, .noFrame)

/-- Repeatedly call `try_decode`, collecting the frames produced; stops at
the first non-frame step. -/
def drainN : StreamDecoder → Nat → StreamDecoder × List StageReport
  | d, 0 => (d, [])
  | d, n + 1 =>
    match d.try_decode with
    | (d', .frame r) =>
      match drainN d' n with
      | (d'', rs) => (d'', r :: rs)
    | (d', _) => (d', [])

theorem take_len_append (k : Nat) (xs ys : List Nat) (h : xs.length = k) :
    (xs ++ ys).take k = xs := by
  subst h
  exact List.take_left xs ys

theorem drop_len_append (k : Nat) (xs ys : List Nat) (h : xs.length = k) :
    (xs ++ ys).drop k = ys := by
  subst h
  exact List.drop_left xs ys

theorem encodeStageReport_length_pos (r : StageReport) :
    0 < (encodeStageReport r).length := by
  simp only [encodeStageReport, encodeDuration, List.length_append,
    toLEBytes_length]
  omega

theorem frameBytes_length (r : StageReport) :
    (frameBytes r).length = 8 + (encodeStageReport r).length := by
  simp [frameBytes, toBEBytes_length]

/-- One complete frame at the read offset decodes to its report and
advances the offset exactly past the frame. -/
theorem try_decode_frame (pre rest : List Nat) (r : StageReport)
    (hwf : r.wfb = true) :
    StreamDecoder.try_decode ⟨pre ++ frameBytes r ++ rest, pre.length⟩ =
      (⟨pre ++ frameBytes r ++ rest, pre.length + (frameBytes r).length⟩,
        .frame r) := by
  have hL : (encodeStageReport r).length < 2 ^ 64 := by
    rw [StageReport.wfb] at hwf
    simp only [Bool.and_eq_true, decide_eq_true_eq] at hwf
    exact hwf.2
  have hpos := encodeStageReport_length_pos r
  have hflen := frameBytes_length r
  have hlen : (pre ++ frameBytes r ++ rest).length =
      pre.length + (8 + (encodeStageReport r).length) + rest.length := by
    simp only [List.length_append, hflen]
  have hdrop : (pre ++ frameBytes r ++ rest).drop pre.length =
      frameBytes r ++ rest := by
    rw [List.append_assoc]
    exact drop_len_append pre.length pre _ rfl
  have htake8 : ((pre ++ frameBytes r ++ rest).drop pre.length).take 8 =
      toBEBytes 8 (encodeStageReport r).length := by
    rw [hdrop, frameBytes, List.append_assoc]
    exact take_len_append 8 _ _ (toBEBytes_length 8 _)
  have hsize : fromBEBytes (((pre ++ frameBytes r ++ rest).drop
      pre.length).take 8) = (encodeStageReport r).length := by
    rw [htake8]
    exact fromBE_toBE 8 _ (by norm_num at hL ⊢; omega)
  have hdrop8 : (pre ++ frameBytes r ++ rest).drop (pre.length + 8) =
      encodeStageReport r ++ rest := by
    rw [frameBytes] at hdrop ⊢
    have : (pre ++ (toBEBytes 8 (encodeStageReport r).length ++
        encodeStageReport r) ++ rest) =
        (pre ++ toBEBytes 8 (encodeStageReport r).length) ++
          (encodeStageReport r ++ rest) := by
      simp [List.append_assoc]
    rw [this]
    exact drop_len_append _ _ _ (by simp [toBEBytes_length])
  have hpayload : ((pre ++ frameBytes r ++ rest).drop
      (pre.length + 8)).take (encodeStageReport r).length =
      encodeStageReport r := by
    rw [hdrop8]
    exact take_len_append _ _ _ rfl
  rw [StreamDecoder.try_decode]
  dsimp only
  rw [if_pos (by rw [hlen]; omega)]
  rw [hsize, if_neg (by rw [hlen]; omega), hpayload,
    decodeStageReport_encode r hwf]
  have heq : pre.length + 8 + (encodeStageReport r).length =
      pre.length + (frameBytes r).length := by
    rw [hflen]; omega
  rw [heq]

/-- Draining a decoder whose unread region is exactly the frames of `rs`
yields `rs` and moves the offset to the end of the (unchanged) buffer. -/
theorem drainN_frames (rs : List StageReport) (pre : List Nat)
    (hwf : ∀ r ∈ rs, r.wfb = true) :
    drainN ⟨pre ++ encodeFrames rs, pre.length⟩ rs.length =
      (⟨pre ++ encodeFrames rs, (pre ++ encodeFrames rs).length⟩, rs) := by
  induction rs generalizing pre with
  | nil =>
    simp [drainN, encodeFrames]
  | cons r rs ih =>
    have hfr : encodeFrames (r :: rs) = frameBytes r ++ encodeFrames rs := by
      simp [encodeFrames]
    rw [List.length_cons, drainN, hfr, show pre ++ (frameBytes r ++
      encodeFrames rs) = pre ++ frameBytes r ++ encodeFrames rs from
      (List.append_assoc pre (frameBytes r) (encodeFrames rs)).symm,
      try_decode_frame pre (encodeFrames rs) r (hwf r (by simp))]
    have hpre : pre.length + (frameBytes r).length =
        (pre ++ frameBytes r).length := by simp
    rw [hpre]
    dsimp only
    rw [ih (pre ++ frameBytes r) (fun x hx => hwf x (by simp [hx]))]

theorem foldl_append_buf (chunks : List (List Nat)) (d : StreamDecoder) :
    chunks.foldl StreamDecoder.append d = ⟨d.buf ++ chunks.flatten, d.offset⟩ := by
  induction chunks generalizing d with
  | nil => simp [StreamDecoder.append]
  | cons c cs ih =>
    simp only [List.foldl_cons, List.flatten_cons, ih, StreamDecoder.append,
      List.append_assoc]

/-- Claim C6: encoding any sequence of stage reports with the frame
writer and feeding the bytes to a fresh `StreamDecoder` in arbitrary
chunks makes successive `try_decode` calls yield exactly the reports in
order, then no frame; the buffer holds exactly the fed bytes and the
offset ends at its length (no corruption). -/
theorem codec_roundtrip (rs : List StageReport) (chunks : List (List Nat))
    (hwf : ∀ r ∈ rs, r.wfb = true)
    (hchunks : chunks.flatten = encodeFrames rs) :
    drainN (chunks.foldl StreamDecoder.append StreamDecoder.new) rs.length =
      (⟨encodeFrames rs, (encodeFrames rs).length⟩, rs) ∧
      (StreamDecoder.try_decode
        ⟨encodeFrames rs, (encodeFrames rs).length⟩).2 = .noFrame := by
  constructor
  · rw [foldl_append_buf, hchunks]
    have h0 : (StreamDecoder.new).buf = [] := rfl
    have h1 : (StreamDecoder.new).offset = 0 := rfl
    rw [h0, h1, List.nil_append]
    have := drainN_frames rs [] hwf
    simpa using this
  · rw [StreamDecoder.try_decode]
    dsimp only
    rw [if_neg (by omega)]

/-- Sample stage reports used by concrete witnesses. -/
def sampleRep1 : StageReport := ⟨"s1", .Success, ⟨0, 111000000⟩⟩

def sampleRep2 : StageReport := ⟨"s2", .Failure 42, ⟨0, 222000000⟩⟩

/-- Witness for C6: two concrete reports, fed in two uneven chunks. -/
theorem codec_roundtrip_witness :
    drainN (([(encodeFrames [sampleRep1, sampleRep2]).take 5,
        (encodeFrames [sampleRep1, sampleRep2]).drop 5]).foldl
        StreamDecoder.append StreamDecoder.new) 2 =
      (⟨encodeFrames [sampleRep1, sampleRep2],
        (encodeFrames [sampleRep1, sampleRep2]).length⟩,
        [sampleRep1, sampleRep2]) ∧
      (StreamDecoder.try_decode ⟨encodeFrames [sampleRep1, sampleRep2],
        (encodeFrames [sampleRep1, sampleRep2]).length⟩).2 = .noFrame :=
  codec_roundtrip [sampleRep1, sampleRep2] _ (by decide) (by simp)

/-- Claim C4 (amended): when a complete frame is available at the read
offset but its payload fails bincode deserialization, `try_decode` hits
the `panic!` path: the driver aborts instead of absorbing the error and
continuing to drive the child's pipes. -/
theorem try_decode_malformed_panics (d : StreamDecoder)
    (h1 : 8 < d.buf.length - d.offset)
    (h2 : ¬(d.buf.length - d.offset <
      8 + fromBEBytes ((d.buf.drop d.offset).take 8)))
    (h3 : decodeStageReport ((d.buf.drop (d.offset + 8)).take
      (fromBEBytes ((d.buf.drop d.offset).take 8))) = none) :
    d.try_decode = (d, .panicked) := by
  rw [StreamDecoder.try_decode, if_pos h1, if_neg h2, h3]

/-- Witness for the amended C4: a frame announcing a 1-byte payload `[0]`,
which bincode cannot parse as a `StageReport`. -/
theorem try_decode_malformed_panics_witness :
    StreamDecoder.try_decode ⟨[0, 0, 0, 0, 0, 0, 0, 1, 0], 0⟩ =
      (⟨[0, 0, 0, 0, 0, 0, 0, 1, 0], 0⟩, .panicked) :=
  try_decode_malformed_panics _ (by decide) (by decide) (by decide)

/-! ## The supervisor (execution.rs lines 300-675)

The main loop is embedded as an executable, fuel-driven state machine.
Everything the environment decides — poll events, the bytes a pipe read
returns, `waitpid` answers, elapsed clocks, the pids `fork` hands out,
`num_cpus::get()` — comes from an explicit `Oracle` indexed by the loop
iteration.  Reporter callbacks and externally visible OS actions
(`fork`, `killpg`, writes to the driver's stdio) are recorded in an event
trace in the order the source performs them. -/

/-- `CompletedTask` from execution.rs lines 98-104. -/
structure CompletedTask where
  full_name : List String
  duration : Duration
  stdout : List Nat
  stderr : List Nat
  status : Status
deriving DecidableEq, Repr

/-- `CompletedTask::name` from execution.rs lines 115-117. -/
def CompletedTask.name (t : CompletedTask) : String :=
  String.intercalate "::" t.full_name

/-- `skip_task` from execution.rs lines 437-445. -/
def skip_task {α : Type} (task : Task α) (reason : String) : CompletedTask :=
  ⟨task.full_name, default, [], [], .Skipped reason⟩

/-- `ObservedTask` from execution.rs lines 75-94.  Pipe receivers become
presence flags (`Option<Receiver>` set/unset); `started_at` records the
iteration at which the task was launched, the elapsed clock itself being
supplied by the oracle. -/
structure ObservedTask where
  full_name : List String
  pid : Int
  started_at : Nat
  stdout_pipe : Bool
  stderr_pipe : Bool
  status_and_duration : Option (Status × Duration)
  stdout_buf : List Nat
  stderr_buf : List Nat
  stdout_offset : Nat
  stderr_offset : Nat
  report_pipe : Bool
  report_decoder : StreamDecoder
deriving DecidableEq, Repr

/-- Index of the last newline in a byte list, if any. -/
def lastNewlineIdx (bs : List Nat) : Option Nat :=
  match bs.reverse.findIdx? (fun b => b == 10) with
  | some j => some (bs.length - 1 - j)
  | none => none

/-- `display_lines` from execution.rs lines 450-458: emit the complete
lines of `buf` starting at `pos`, returning the bytes written and the
advanced position (unchanged when no newline is present). -/
def display_lines (buf : List Nat) (pos : Nat) : List Nat × Nat :=
  match lastNewlineIdx (buf.drop pos) with
  | some i => ((buf.drop pos).take (i + 1), pos + i + 1)
  | none => ([], pos)

/-- `flush_output` from execution.rs lines 462-468: emit the trailing
partial line (with a newline appended) and move `pos` to the end. -/
def flush_output (buf : List Nat) (pos : Nat) : List Nat × Nat :=
  if pos < buf.length then (buf.drop pos ++ [10], buf.length) else ([], pos)

/-- Reporter callbacks and externally visible OS actions, in program
order. -/
inductive Ev where
  | init (plan : List (List String)) : Ev
  | start (name : String) : Ev
  | report (result : CompletedTask) : Ev
  | stage (full_name : List String) (rep : StageReport) : Ev
  | done : Ev
  | fork (pid : Int) (full_name : List String) : Ev
  | killpg (pid : Int) : Ev
  | writeStdout (bytes : List Nat) : Ev
  | writeStderr (bytes : List Nat) : Ev
deriving DecidableEq, Repr

/-- One readiness event from the poll, as mio reports it. -/
structure PollEvent where
  token : Nat
  readable : Bool
  read_closed : Bool
deriving DecidableEq, Repr

/-- The relevant outcomes of non-blocking `waitpid`. -/
inductive WaitResult where
  | exited (code : Int) : WaitResult
  | signaled (sig : String) : WaitResult
  | stillAlive : WaitResult
deriving DecidableEq, Repr

/-- The environment of one `execute` run: everything the OS decides,
indexed by loop iteration (and event index for reads). -/
structure Oracle where
  numCpus : Nat
  forkPid : Nat → Int
  events : Nat → List PollEvent
  readBytes : Nat → Nat → List Nat
  signalRecv : Nat → Option String
  wait : Nat → Int → WaitResult
  elapsed : Nat → Int → Duration

/-- The `InputSource::Stdout` arm of the event match (execution.rs lines
551-574).  Note the `read_closed` branch flushes from `stderr_buf` while
advancing `stdout_offset`. -/
def handleStdoutEvent (nocapture readable closed : Bool)
    (bytes : List Nat) (ot : ObservedTask) : ObservedTask × List Ev :=
  let step1 : ObservedTask × List Ev :=
    if readable then
      if ot.stdout_pipe then
        let buf' := ot.stdout_buf ++ bytes
        if nocapture then
          match display_lines buf' ot.stdout_offset with
          | (out, pos') =>
            ({ot with stdout_buf := buf', stdout_offset := pos'},
              if out.isEmpty then [] else [.writeStdout out])
        else ({ot with stdout_buf := buf'}, [])
      else (ot, [])
    else (ot, [])
  match step1 with
  | (ot1, evs1) =>
    if closed then
      let step2 : ObservedTask × List Ev :=
        if nocapture then
          match flush_output ot1.stderr_buf ot1.stdout_offset with
          | (out, pos') =>
            ({ot1 with stdout_offset := pos'},
              if out.isEmpty then [] else [.writeStdout out])
        else (ot1, [])
      match step2 with
      | (ot2, evs2) => ({ot2 with stdout_pipe := false}, evs1 ++ evs2)
    else (ot1, evs1)

/-- The `InputSource::Stderr` arm (execution.rs lines 576-599). -/
def handleStderrEvent (nocapture readable closed : Bool)
    (bytes : List Nat) (ot : ObservedTask) : ObservedTask × List Ev :=
  let step1 : ObservedTask × List Ev :=
    if readable then
      if ot.stderr_pipe then
        let buf' := ot.stderr_buf ++ bytes
        if nocapture then
          match display_lines buf' ot.stderr_offset with
          | (out, pos') =>
            ({ot with stderr_buf := buf', stderr_offset := pos'},
              if out.isEmpty then [] else [.writeStderr out])
        else ({ot with stderr_buf := buf'}, [])
      else (ot, [])
    else (ot, [])
  match step1 with
  | (ot1, evs1) =>
    if closed then
      let step2 : ObservedTask × List Ev :=
        if nocapture then
          match flush_output ot1.stderr_buf ot1.stderr_offset with
          | (out, pos') =>
            ({ot1 with stderr_offset := pos'},
              if out.isEmpty then [] else [.writeStderr out])
        else (ot1, [])
      match step2 with
      | (ot2, evs2) => ({ot2 with stderr_pipe := false}, evs1 ++ evs2)
    else (ot1, evs1)

/-- The `InputSource::Report` arm (execution.rs lines 601-614): append
the read bytes to the stage decoder and call `try_decode` once (a single
`if let`, not a loop), invoking the reporter's `stage` on a decoded
frame; `none` models the decode `panic!`. -/
def handleReportEvent (readable closed : Bool) (bytes : List Nat)
    (ot : ObservedTask) : Option (ObservedTask × List Ev) :=
  let step1 : Option (ObservedTask × List Ev) :=
    if readable then
      if ot.report_pipe then
        match (ot.report_decoder.append bytes).try_decode with
        | (dec', .frame r) =>
          some ({ot with report_decoder := dec'}, [.stage ot.full_name r])
        | (dec', .noFrame) => some ({ot with report_decoder := dec'}, [])
        | (_, .panicked) => none
      else some (ot, [])
    else some (ot, [])
  match step1 with
  | none => none
  | some (ot1, evs1) =>
    if closed then some ({ot1 with report_pipe := false}, evs1)
    else some (ot1, evs1)

/-- The reap-and-timeout step for one live task (execution.rs lines
618-641): with no status yet, map the `waitpid` answer; if the child is
still alive and the elapsed time has reached the timeout, `killpg` the
process group and record `Timeout` with the elapsed duration. -/
def reapOne (timeout elapsed : Duration) (wait : WaitResult)
    (ot : ObservedTask) : ObservedTask × List Ev :=
  match ot.status_and_duration with
  | some _ => (ot, [])
  | none =>
    match wait with
    | .exited code =>
      ({ot with status_and_duration := some (if code = 0
        then (.Success, elapsed) else (.Failure code, elapsed))}, [])
    | .signaled sig =>
      ({ot with status_and_duration := some (.Signaled sig, elapsed)}, [])
    | .stillAlive =>
      if Duration.le timeout elapsed then
        ({ot with status_and_duration := some (.Timeout, elapsed)},
          [.killpg ot.pid])
      else (ot, [])

/-- `launch` + `observe` (execution.rs lines 300-366 and 387-435): the
fresh `ObservedTask` for a forked child, all three pipes present. -/
def observeNew {α : Type} (task : Task α) (pid : Int) (iter : Nat) :
    ObservedTask :=
  ⟨task.full_name, pid, iter, true, true, none, [], [], 0, 0, true,
    StreamDecoder.new⟩

/-- The supervisor's mutable state: the pending `Vec` (popped from the
back after the initial `reverse`), the `live` map (as a list in insertion
order), the results vector, and the number of launches so far (feeding
the oracle's pid supply). -/
structure ExecSt (α : Type) where
  tasks : List (Task α)
  observed : List ObservedTask
  results : List CompletedTask
  launches : Nat
deriving DecidableEq, Repr

/-- `Vec::pop`. -/
def vecPop {β : Type} (l : List β) : Option β × List β :=
  match l.getLast? with
  | some x => (some x, l.dropLast)
  | none => (none, l)

/-- The admission loop (execution.rs lines 499-516): while fewer live
tasks than `jobs`, pop a task; `start` it; a task with a `skip_reason`
is reported as skipped and the loop continues (nothing is forked and the
results vector is untouched); otherwise launch and observe it. -/
def admissionAux {α : Type} (jobs : Nat) (oracle : Oracle) (iter : Nat) :
    Nat → ExecSt α → ExecSt α × List Ev
  | 0, s => (s, [])
  | fuel + 1, s =>
    if s.observed.length < jobs then
      match vecPop s.tasks with
      | (some task, rest) =>
        match task.options.skip_reason with
        | some reason =>
          match admissionAux jobs oracle iter fuel {s with tasks := rest}
          with
          | (s', evs) =>
            (s', .start task.name :: .report (skip_task task reason) :: evs)
        | none =>
          let ot := observeNew task (oracle.forkPid s.launches) iter
          match admissionAux jobs oracle iter fuel
            ⟨rest, s.observed ++ [ot], s.results, s.launches + 1⟩ with
          | (s', evs) =>
            (s', .start task.name ::
              .fork (oracle.forkPid s.launches) task.full_name :: evs)
      | (none, _) => (s, [])
    else (s, [])

def admission {α : Type} (jobs : Nat) (oracle : Oracle) (iter : Nat)
    (s : ExecSt α) : ExecSt α × List Ev :=
  admissionAux jobs oracle iter s.tasks.length s

/-- `HashMap::get_mut` by pid. -/
def lookupObserved (obs : List ObservedTask) (pid : Int) :
    Option ObservedTask :=
  obs.find? fun ot => ot.pid == pid

/-- Writing back the mutated entry. -/
def updateObserved (obs : List ObservedTask) (pid : Int)
    (ot' : ObservedTask) : List ObservedTask :=
  obs.map fun ot => if ot.pid == pid then ot' else ot

/-- Outcome of a piece of the loop body: continue with a state, panic
(an `expect`/`panic!` fired), or terminate the process
(`std::process::exit`). -/
inductive LoopStep (α : Type) where
  | ok (s : ExecSt α) (evs : List Ev) : LoopStep α
  | panicked (evs : List Ev) : LoopStep α
  | exited (code : Nat) (evs : List Ev) : LoopStep α

/-- Dispatch of one poll event (execution.rs lines 521-616).  Token 0 is
`SIGNAL_TOKEN`: a delivered signal kills every live process group and
exits the driver with status 1.  An event for an unknown pid is the
`expect` panic. -/
def processEvent {α : Type} (cfg : Config) (oracle : Oracle)
    (iter idx : Nat) (ev : PollEvent) (s : ExecSt α) : LoopStep α :=
  if ev.token == 0 then
    match oracle.signalRecv iter with
    | some _ => .exited 1 (s.observed.map fun ot => .killpg ot.pid)
    | none => .ok s []
  else
    match split_token ev.token with
    | (pid, src) =>
      match lookupObserved s.observed pid with
      | none => .panicked []
      | some ot =>
        match src with
        | .Stdout =>
          match handleStdoutEvent cfg.nocapture ev.readable ev.read_closed
            (oracle.readBytes iter idx) ot with
          | (ot', evs) =>
            .ok {s with observed := updateObserved s.observed pid ot'} evs
        | .Stderr =>
          match handleStderrEvent cfg.nocapture ev.readable ev.read_closed
            (oracle.readBytes iter idx) ot with
          | (ot', evs) =>
            .ok {s with observed := updateObserved s.observed pid ot'} evs
        | .Report =>
          match handleReportEvent ev.readable ev.read_closed
            (oracle.readBytes iter idx) ot with
          | none => .panicked []
          | some (ot', evs) =>
            .ok {s with observed := updateObserved s.observed pid ot'} evs

def processEvents {α : Type} (cfg : Config) (oracle : Oracle) (iter : Nat) :
    Nat → List PollEvent → ExecSt α → LoopStep α
  | _, [], s => .ok s []
  | idx, ev :: rest, s =>
    match processEvent cfg oracle iter idx ev s with
    | .ok s' evs =>
      match processEvents cfg oracle iter (idx + 1) rest s' with
      | .ok s'' evs' => .ok s'' (evs ++ evs')
      | .panicked evs' => .panicked (evs ++ evs')
      | .exited c evs' => .exited c (evs ++ evs')
    | other => other

/-- The reap/timeout pass over every live task in order (execution.rs
lines 618-641). -/
def reapAll (timeout : Duration) (oracle : Oracle) (iter : Nat) :
    List ObservedTask → List ObservedTask × List Ev
  | [] => ([], [])
  | ot :: rest =>
    match reapOne timeout (oracle.elapsed iter ot.pid)
      (oracle.wait iter ot.pid) ot with
    | (ot', evs) =>
      match reapAll timeout oracle iter rest with
      | (rest', evs') => (ot' :: rest', evs ++ evs')

/-- The retirement condition (execution.rs lines 643-651): a status is
recorded and the stdout and stderr pipes are gone (the pattern does not
mention `report_pipe`). -/
def completedFlag (ot : ObservedTask) : Bool :=
  ot.status_and_duration.isSome && !ot.stdout_pipe && !ot.stderr_pipe

/-- The `CompletedTask` built at retirement (execution.rs lines 654-667).
Only evaluated on tasks whose status is present (the source `unwrap`s). -/
def completeTask (ot : ObservedTask) : CompletedTask :=
  ⟨ot.full_name, (ot.status_and_duration.getD (.Success, default)).2,
    ot.stdout_buf, ot.stderr_buf,
    (ot.status_and_duration.getD (.Success, default)).1⟩

/-- The retirement pass (execution.rs lines 643-670): remove every
completed task from the live set, report it and append it to the
results, in iteration order. -/
def retireAll : List ObservedTask →
    List ObservedTask × List CompletedTask × List Ev
  | [] => ([], [], [])
  | ot :: rest =>
    match retireAll rest with
    | (keep, cts, evs) =>
      if completedFlag ot
      then (keep, completeTask ot :: cts, .report (completeTask ot) :: evs)
      else (ot :: keep, cts, evs)

/-- Overall outcome of `execute`. -/
inductive ExecResult where
  | finished (results : List CompletedTask) : ExecResult
  | panicked : ExecResult
  | exited (code : Nat) : ExecResult
  | outOfFuel : ExecResult
deriving DecidableEq, Repr

/-- `effective_timeout = config.timeout ?? DEFAULT_TIMEOUT` (execution.rs
line 475). -/
def effectiveTimeout (cfg : Config) : Duration :=
  cfg.timeout.getD DEFAULT_TIMEOUT

/-- `effective_jobs = config.jobs ?? num_cpus::get()` (execution.rs line
476). -/
def effectiveJobs (cfg : Config) (oracle : Oracle) : Nat :=
  cfg.jobs.getD oracle.numCpus

/-- The `while !tasks.is_empty() || !observed_tasks.is_empty()` loop
(execution.rs lines 498-671), driven by fuel. -/
def execLoop {α : Type} (cfg : Config) (oracle : Oracle) (jobs : Nat)
    (timeout : Duration) : Nat → Nat → ExecSt α → ExecResult × List Ev
  | 0, _, _ => (.outOfFuel, [])
  | fuel + 1, iter, s =>
    if s.tasks.isEmpty && s.observed.isEmpty then (.finished s.results, [])
    else
      match admission jobs oracle iter s with
      | (s1, evs1) =>
        match processEvents cfg oracle iter 0 (oracle.events iter) s1 with
        | .panicked evs2 => (.panicked, evs1 ++ evs2)
        | .exited c evs2 => (.exited c, evs1 ++ evs2)
        | .ok s2 evs2 =>
          match reapAll timeout oracle iter s2.observed with
          | (obs', evs3) =>
            match retireAll obs' with
            | (keep, cts, evs4) =>
              match execLoop cfg oracle jobs timeout fuel (iter + 1)
                {s2 with observed := keep, results := s2.results ++ cts}
              with
              | (res, evs5) => (res, evs1 ++ evs2 ++ evs3 ++ evs4 ++ evs5)

/-- `execute` from execution.rs lines 470-675: `init` the reporter with
the plan, reverse the task vector, run the loop, `done` the reporter
(only on the normal return path) and yield the results. -/
def executeModel {α : Type} (cfg : Config) (oracle : Oracle) (fuel : Nat)
    (tasks : List (Task α)) : ExecResult × List Ev :=
  match execLoop cfg oracle (effectiveJobs cfg oracle)
    (effectiveTimeout cfg) fuel 0 ⟨tasks.reverse, [], [], 0⟩ with
  | (res, evs) =>
    (res, .init (tasks.map Task.full_name) :: evs ++
      (match res with | .finished _ => [.done] | _ => []))

/-- `default_main` from lib.rs lines 223-251, reduced to the driver's
exit status: command-line parsing is outside the model (the resolved
`Config` is a parameter), the reporter is the event trace; `execute`'s
returned results are discarded and the function returns, so the process
exits 0 whenever the run terminates normally (a panic aborts the process
with Rust's panic status 101). -/
def default_main_exit {α : Type} (cfg : Config) (oracle : Oracle)
    (fuel : Nat) (tree : TestTree α) : Option Nat :=
  match (executeModel cfg oracle fuel (make_plan cfg tree)).1 with
  | .finished _ => some 0
  | .exited c => some c
  | .panicked => some 101
  | .outOfFuel => none

/-! ## Concrete data for witnesses and counterexamples -/

def taskT : Task Unit := ⟨["t"], (), ⟨none⟩⟩

def taskSkip : Task Unit := ⟨["x"], (), ⟨some "reason-y"⟩⟩

def treeT : TestTree Unit := .Leaf "t" () ⟨none⟩

def cfgJobs0 : Config := ⟨none, [], none, .Auto, some 0, .Auto, false⟩

def cfgJobs1 : Config := ⟨none, [], none, .Auto, some 1, .Auto, false⟩

def cfgTimeout1 : Config := ⟨none, [], some ⟨1, 0⟩, .Auto, some 1, .Auto,
  false⟩

/-- An environment that never delivers events, reads, signals or
completions. -/
def oracleStub : Oracle :=
  ⟨1, fun _ => 1, fun _ => [], fun _ _ => [], fun _ => none,
    fun _ _ => .stillAlive, fun _ _ => ⟨0, 0⟩⟩

/-- An environment where the single child (pid 1) closes all three pipes
in the first iteration and `waitpid` reports exit code 1. -/
def oracleFail : Oracle :=
  ⟨1, fun _ => 1,
    fun i => if i = 0
      then [⟨4, false, true⟩, ⟨5, false, true⟩, ⟨6, false, true⟩] else [],
    fun _ _ => [], fun _ => none, fun _ _ => .exited 1, fun _ _ => ⟨0, 0⟩⟩

/-- An environment where the single child (pid 1) delivers one readable
stage-pipe event whose bytes are a complete frame with an undecodable
1-byte payload. -/
def oracleBadStage : Oracle :=
  ⟨1, fun _ => 1,
    fun i => if i = 0 then [⟨6, true, false⟩] else [],
    fun _ _ => [0, 0, 0, 0, 0, 0, 0, 1, 0], fun _ => none,
    fun _ _ => .stillAlive, fun _ _ => ⟨0, 0⟩⟩

/-! ## Claim C5: timeout enforcement -/

/-- Claim C5: for a live task with no recorded status whose child is
still running when the supervisor observes `elapsed ≥ effective_timeout`
— where the effective timeout is the configured one, or 10 seconds when
unset — the reap step sends SIGKILL to the child's process group and
records status `Timeout` with duration equal to the elapsed time at that
moment (hence duration ≥ effective_timeout). -/
theorem timeout_kills_and_sets_status (cfg : Config) (elapsed : Duration)
    (ot : ObservedTask) (h1 : ot.status_and_duration = none)
    (h2 : Duration.le (effectiveTimeout cfg) elapsed = true) :
    reapOne (effectiveTimeout cfg) elapsed .stillAlive ot =
      ({ot with status_and_duration := some (.Timeout, elapsed)},
        [.killpg ot.pid]) ∧
      (effectiveTimeout cfg).toNanos ≤ elapsed.toNanos ∧
      (cfg.timeout = none →
        effectiveTimeout cfg = Duration.from_secs 10) ∧
      (∀ d, cfg.timeout = some d → effectiveTimeout cfg = d) := by
  refine ⟨?_, ?_, ?_, ?_⟩
  · rw [reapOne, h1]
    dsimp only
    rw [if_pos h2]
  · rw [Duration.le, decide_eq_true_eq] at h2
    exact h2
  · intro h
    rw [effectiveTimeout, h]
    rfl
  · intro d h
    rw [effectiveTimeout, h]
    rfl

/-- Witness for C5: timeout 1 s, elapsed 2 s, a fresh observed task. -/
theorem timeout_kills_and_sets_status_witness :
    reapOne (effectiveTimeout cfgTimeout1) ⟨2, 0⟩ .stillAlive
      (observeNew taskT 1 0) =
      ({observeNew taskT 1 0 with
        status_and_duration := some (.Timeout, ⟨2, 0⟩)}, [.killpg 1]) :=
  (timeout_kills_and_sets_status cfgTimeout1 ⟨2, 0⟩ (observeNew taskT 1 0)
    rfl (by decide)).1

/-! ## Claim C10: `jobs = Some(0)` wedges the loop -/

theorem admissionAux_jobs_zero {α : Type} (oracle : Oracle) (iter : Nat)
    (fuel : Nat) (s : ExecSt α) :
    admissionAux 0 oracle iter fuel s = (s, []) := by
  cases fuel with
  | zero => rfl
  | succ n =>
    rw [admissionAux, if_neg (by omega)]

theorem execLoop_jobs_zero {α : Type} (cfg : Config) (oracle : Oracle)
    (timeout : Duration) (fuel iter : Nat) (s : ExecSt α)
    (hobs : s.observed = []) (hne : s.tasks ≠ [])
    (he : ∀ i, oracle.events i = []) :
    execLoop cfg oracle 0 timeout fuel iter s = (.outOfFuel, []) := by
  induction fuel generalizing iter s with
  | zero => rfl
  | succ n ih =>
    have hcond : (s.tasks.isEmpty && s.observed.isEmpty) = false := by
      cases htk : s.tasks with
      | nil => exact absurd htk hne
      | cons a l => rfl
    rw [execLoop, if_neg (by rw [hcond]; simp)]
    rw [admission, admissionAux_jobs_zero]
    dsimp only
    rw [he iter]
    show (match reapAll timeout oracle iter s.observed with
      | (obs', evs3) =>
        match retireAll obs' with
        | (keep, cts, evs4) =>
          match execLoop cfg oracle 0 timeout n (iter + 1)
            {s with observed := keep, results := s.results ++ cts} with
          | (res, evs5) => (res, [] ++ [] ++ evs3 ++ evs4 ++ evs5))
      = (.outOfFuel, [])
    rw [hobs]
    show (match execLoop cfg oracle 0 timeout n (iter + 1)
        {s with observed := [], results := s.results ++ []} with
      | (res, evs5) => (res, [] ++ [] ++ [] ++ [] ++ evs5))
      = (.outOfFuel, [])
    rw [ih (iter + 1) ⟨s.tasks, [], s.results ++ [], s.launches⟩ rfl hne]
    rfl

/-- Claim C10: with `jobs = Some(0)` and a non-empty plan, the admission
condition `|live| < jobs` is never satisfiable, the pending stack never
drains, and `execute` never terminates: for every amount of fuel the loop
is still running, and after `init` no task is started, skipped, launched
or reported. -/
theorem jobs_zero_never_terminates {α : Type} (cfg : Config)
    (oracle : Oracle) (tasks : List (Task α)) (fuel : Nat)
    (hj : cfg.jobs = some 0) (ht : tasks ≠ [])
    (he : ∀ i, oracle.events i = []) :
    executeModel cfg oracle fuel tasks =
      (.outOfFuel, [.init (tasks.map Task.full_name)]) := by
  have hjobs : effectiveJobs cfg oracle = 0 := by
    rw [effectiveJobs, hj]
    rfl
  have hrev : tasks.reverse ≠ [] := by
    intro h
    exact ht (by simpa using congrArg List.reverse h)
  rw [executeModel, hjobs,
    execLoop_jobs_zero cfg oracle (effectiveTimeout cfg) fuel 0
      ⟨tasks.reverse, [], [], 0⟩ rfl hrev he]
  rfl

/-- Witness for C10: one pending task, `jobs = Some(0)`, three loop
iterations of fuel, an event-free environment. -/
theorem jobs_zero_never_terminates_witness :
    executeModel cfgJobs0 oracleStub 3 [taskT] =
      (.outOfFuel, [.init [["t"]]]) :=
  jobs_zero_never_terminates cfgJobs0 oracleStub [taskT] 3 rfl
    (by decide) (fun _ => rfl)

/-! ## Claim C2: skipped tasks -/

theorem admissionAux_results {α : Type} (jobs : Nat) (oracle : Oracle)
    (iter : Nat) (fuel : Nat) (s : ExecSt α) :
    (admissionAux jobs oracle iter fuel s).1.results = s.results := by
  induction fuel generalizing s with
  | zero => rfl
  | succ n ih =>
    rw [admissionAux]
    by_cases hroom : s.observed.length < jobs
    · rw [if_pos hroom]
      cases hp : vecPop s.tasks with
      | mk o rest =>
        cases o with
        | none => rfl
        | some task =>
          cases hsk : task.options.skip_reason with
          | some reason =>
            dsimp only
            rw [hsk]
            dsimp only
            cases hA : admissionAux jobs oracle iter n
              ⟨rest, s.observed, s.results, s.launches⟩ with
            | mk s' evs =>
              have hres := ih ⟨rest, s.observed, s.results, s.launches⟩
              rw [hA] at hres
              exact hres
          | none =>
            dsimp only
            rw [hsk]
            dsimp only
            cases hA : admissionAux jobs oracle iter n
              ⟨rest, s.observed ++
                [observeNew task (oracle.forkPid s.launches) iter],
                s.results, s.launches + 1⟩ with
            | mk s' evs =>
              have hres := ih ⟨rest, s.observed ++
                [observeNew task (oracle.forkPid s.launches) iter],
                s.results, s.launches + 1⟩
              rw [hA] at hres
              exact hres
    · rw [if_neg hroom]

/-- Claim C2 (amended): when the admission loop pops a task whose
resolved options carry `skip_reason = Some(reason)`, it calls the
reporter's `start`, then hands the reporter the synthesized
`CompletedTask` with status `Skipped(reason)`, duration 0 and empty
stdout/stderr, forks nothing for that task, and continues admitting; the
synthesized `CompletedTask` is NOT appended to the results vector —
admission leaves `results` untouched. -/
theorem admission_skip_reports_without_append {α : Type} (jobs : Nat)
    (oracle : Oracle) (iter : Nat) (s : ExecSt α) (task : Task α)
    (rest : List (Task α)) (reason : String)
    (hpop : vecPop s.tasks = (some task, rest))
    (hskip : task.options.skip_reason = some reason)
    (hroom : s.observed.length < jobs) :
    admission jobs oracle iter s =
      ((admission jobs oracle iter {s with tasks := rest}).1,
        .start task.name ::
          .report ⟨task.full_name, ⟨0, 0⟩, [], [], .Skipped reason⟩ ::
          (admission jobs oracle iter {s with tasks := rest}).2) ∧
      (admission jobs oracle iter s).1.results = s.results := by
  have hne : s.tasks ≠ [] := by
    intro h
    rw [h] at hpop
    simp [vecPop] at hpop
  have hrest : rest = s.tasks.dropLast := by
    rw [vecPop] at hpop
    cases hgl : s.tasks.getLast? with
    | none =>
      rw [hgl] at hpop
      simp at hpop
    | some x =>
      rw [hgl] at hpop
      simp at hpop
      exact hpop.2.symm
  have hlen : s.tasks.length = rest.length + 1 := by
    rw [hrest, List.length_dropLast]
    have := List.length_pos.mpr hne
    omega
  constructor
  · rw [admission, hlen, admissionAux, if_pos hroom, hpop]
    dsimp only
    rw [hskip]
    dsimp only
    have hlen2 : ({s with tasks := rest} : ExecSt α).tasks.length =
        rest.length := rfl
    rw [admission, hlen2]
    cases hA : admissionAux jobs oracle iter rest.length
      {s with tasks := rest} with
    | mk s' evs =>
      dsimp only
      rw [skip_task]
      rfl
  · rw [admission, admissionAux_results]

/-- Witness for the amended C2: one pending skip task, room for one
job. -/
theorem admission_skip_reports_without_append_witness :
    admission 1 oracleStub 0 (⟨[taskSkip], [], [], 0⟩ : ExecSt Unit) =
      ((admission 1 oracleStub 0 (⟨[], [], [], 0⟩ : ExecSt Unit)).1,
        .start "x" ::
          .report ⟨["x"], ⟨0, 0⟩, [], [], .Skipped "reason-y"⟩ ::
          (admission 1 oracleStub 0 (⟨[], [], [], 0⟩ : ExecSt Unit)).2) :=
  (admission_skip_reports_without_append 1 oracleStub 0
    ⟨[taskSkip], [], [], 0⟩ taskSkip [] "reason-y" (by decide) rfl
    (by decide)).1

/-- Counterexample to C2 as stated: a complete run over a plan whose only
task is skipped.  The reporter is handed the synthesized skipped
`CompletedTask`, but the returned results vector is empty — the
`CompletedTask` is never appended to it. -/
theorem skipped_task_not_in_results :
    executeModel cfgJobs1 oracleStub 2 [taskSkip] =
      (.finished [],
        [.init [["x"]], .start "x",
          .report ⟨["x"], ⟨0, 0⟩, [], [], .Skipped "reason-y"⟩,
          .done]) := by
  decide

/-! ## Claim C3: the driver's exit status -/

/-- Claim C3 (amended): whenever `execute` returns normally,
`default_main` discards the results vector and returns, so the driver
process exits 0 regardless of the retired tasks' statuses; `is_ok`
returns true exactly for `Success` and `Skipped`. -/
theorem default_main_exit_ignores_statuses :
    (∀ (α : Type) (cfg : Config) (oracle : Oracle) (fuel : Nat)
      (tree : TestTree α) (results : List CompletedTask),
      (executeModel cfg oracle fuel (make_plan cfg tree)).1 =
        .finished results →
      default_main_exit cfg oracle fuel tree = some 0) ∧
    (∀ s : Status, s.is_ok = true ↔
      s = .Success ∨ ∃ r, s = .Skipped r) := by
  constructor
  · intro α cfg oracle fuel tree results h
    rw [default_main_exit, h]
  · intro s
    cases s <;> simp [Status.is_ok]

theorem make_plan_treeT : make_plan cfgJobs1 treeT = [taskT] := by
  rw [make_plan, makePlanGo.eq_def]
  rfl

/-- Witness for the amended C3, at a run whose single task fails with
exit code 1: the driver still exits 0. -/
theorem default_main_exit_ignores_statuses_witness :
    default_main_exit cfgJobs1 oracleFail 2 treeT = some 0 :=
  default_main_exit_ignores_statuses.1 Unit cfgJobs1 oracleFail 2 treeT
    [⟨["t"], ⟨0, 0⟩, [], [], .Failure 1⟩]
    (by rw [make_plan_treeT]; decide)

/-- Counterexample to C3 as stated: a run whose single retired task has
status `Failure(1)` (not `is_ok`), yet the driver exits 0. -/
theorem default_main_exit_zero_on_failure :
    (executeModel cfgJobs1 oracleFail 2 (make_plan cfgJobs1 treeT)).1 =
      .finished [⟨["t"], ⟨0, 0⟩, [], [], .Failure 1⟩] ∧
      (Status.Failure 1).is_ok = false ∧
      default_main_exit cfgJobs1 oracleFail 2 treeT = some 0 := by
  refine ⟨?_, rfl, ?_⟩
  · rw [make_plan_treeT]
    decide
  · rw [default_main_exit, make_plan_treeT]
    have h : (executeModel cfgJobs1 oracleFail 2 [taskT]).1 =
        .finished [⟨["t"], ⟨0, 0⟩, [], [], .Failure 1⟩] := by decide
    rw [h]

/-! ## Claim C4 counterexample: the supervisor panics on undecodable
stage bytes -/

/-- Counterexample to C4 as stated: a child whose stage pipe delivers one
complete frame with an undecodable payload makes the supervisor panic.
The run aborts right after the read — the supervisor neither keeps
driving the child's stdout, stderr and termination, nor does the test
reach a terminal status (no `report`, no `done`). -/
theorem malformed_stage_frame_aborts_run :
    executeModel cfgJobs1 oracleBadStage 2 [taskT] =
      (.panicked, [.init [["t"]], .start "t", .fork 1 ["t"]]) := by
  decide

/-! ## Claim C8: stage-frame delivery -/

/-- Claim C8 exhibit (code bug): one readable stage-pipe event whose
bytes hold two complete frames leads to exactly one `stage` callback —
the handler calls `try_decode` once per event instead of draining the
buffer — although the decoder could yield the second frame (shown by the
trailing `try_decode`).  The claimed behavior (one callback per decodable
frame, `stage(s1)` then `stage(s2)`) does not happen. -/
theorem stage_event_single_decode :
    handleReportEvent true false (encodeFrames [sampleRep1, sampleRep2])
      (observeNew taskT 1 0) =
      some ((⟨["t"], 1, 0, true, true, none, [], [], 0, 0, true,
          ⟨encodeFrames [sampleRep1, sampleRep2],
            (frameBytes sampleRep1).length⟩⟩ : ObservedTask),
        [.stage ["t"] sampleRep1]) ∧
      (StreamDecoder.try_decode ⟨encodeFrames [sampleRep1, sampleRep2],
        (frameBytes sampleRep1).length⟩).2 = .frame sampleRep2 := by
  constructor
  · decide
  · decide

/-! ## Claim C9: the nocapture flush on stdout close -/

/-- Claim C9 exhibit (code bug): under nocapture, a `read_closed` event
on the stdout pipe of a task whose captured stdout is `"a"` (no trailing
newline) and captured stderr is `"b"` makes the supervisor write
`"b\x0a"` — the trailing bytes of the stderr buffer — to the driver's
stdout, and advance `stdout_offset` to the stderr buffer's length; the
claimed flush of the stdout buffer (`"a\x0a"`) does not happen. -/
theorem stdout_close_flushes_stderr_buf :
    handleStdoutEvent true false true []
      (⟨["t"], 1, 0, true, true, none, [97], [98], 0, 0, true,
        StreamDecoder.new⟩ : ObservedTask) =
      ((⟨["t"], 1, 0, false, true, none, [97], [98], 1, 0, true,
          StreamDecoder.new⟩ : ObservedTask),
        [.writeStdout [98, 10]]) := by
  decide

end Raclette
